import Mathlib

/-!
A shallow embedding, in Lean 4, of the data-curation program in
`src/datagen.py` of the genericify_cpp repository.  Text is modelled as
`List Char` (the code points of a Python `str`).  The ASCII core of
Python's word-character class stands in for the full Unicode class, and
line splitting is modelled for LF-separated text.  The external
`clang-format` subprocess and the human operator's file edits are
modelled as oracle functions supplied in an environment structure.
-/

namespace Datagen

/-- Text as a list of Unicode scalar values (a Python `str`). -/
abbrev Str := List Char

/-- Python `str.startswith`: the second argument is a leading run of the first. -/
def startsWithChars : Str → Str → Bool
  | _, [] => true
  | [], _ :: _ => false
  | c :: s, p :: ps => c == p && startsWithChars s ps

/-- The ASCII whitespace characters stripped by Python `str.strip()`. -/
def isPySpace (c : Char) : Bool :=
  c == ' ' || c == '\t' || c == '\n' || c == '\r' || c == '\x0b' || c == '\x0c'

/-- Python `str.strip()` on its ASCII whitespace core. -/
def pyStrip (s : Str) : Str :=
  ((s.dropWhile isPySpace).reverse.dropWhile isPySpace).reverse

/-- The closed command set `COMMANDS` of `datagen.py` (line 21), in source order. -/
def COMMANDS : List Str := [("skip").data, ("exit").data, ("").data]

/-- The command prompt of `datagen.py` (`while (resp := input(...).strip()) not in COMMANDS: pass`): consume raw input lines until one whose stripped form is a command, and return that stripped command with the unread inputs.  `none` models an operator who never supplies a valid command (the real loop would block forever re-prompting). -/
def promptLoop : List Str → Option (Str × List Str)
  | [] => none
  | x :: rest => if pyStrip x ∈ COMMANDS then some (pyStrip x, rest) else promptLoop rest

/-- Fuelled worker behind `str.splitlines` for LF-separated text.  The fuel only funds termination; `s.length` always suffices. -/
def splitlinesF : Nat → Str → List Str
  | 0, _ => []
  | _ + 1, [] => []
  | fuel + 1, c :: s =>
    match (c :: s).dropWhile (fun x => x != '\n') with
    | [] => [(c :: s).takeWhile (fun x => x != '\n')]
    | _ :: r => (c :: s).takeWhile (fun x => x != '\n') :: splitlinesF fuel r

/-- Python `str.splitlines` restricted to LF line boundaries (no trailing empty line for text ending in a newline, and the empty text has no lines). -/
def splitlines (s : Str) : List Str := splitlinesF s.length s

/-- Python `"\n".join`. -/
def joinln : List Str → Str
  | [] => []
  | [l] => l
  | l :: l' :: ls => l ++ '\n' :: joinln (l' :: ls)

/-- The namespace-use directive tested by `strip_code`. -/
def usingNamespaceTxt : Str := ("using namespace").data

/-- The inclusion directive tested by `strip_code`. -/
def includeTxt : Str := ("#include").data

/-- The guard of the comprehension in `strip_code`: keep a line unless it begins with one of the two directive prefixes. -/
def keepLine (c : Str) : Bool :=
  !(startsWithChars c usingNamespaceTxt) && !(startsWithChars c includeTxt)

/-- `strip_code` of `datagen.py` (lines 41-47). -/
def strip_code (code : Str) : Str := joinln ((splitlines code).filter keepLine)

/-- The ASCII core of Python's word-character class `\w`; the pattern class `[^\w_]` of `STD_NAME_RE` is its complement. -/
def isWordChar (c : Char) : Bool := c.isAlphanum || c == '_'

/-- The alternation `string|vector|map|abs` of `STD_NAME_RE` (line 28), in source order. -/
def STD_NAMES : List Str := [("string").data, ("vector").data, ("map").data, ("abs").data]

/-- Group 2 of `STD_NAME_RE`: try each vocabulary word as a leading run of `s`.  The four words begin with pairwise distinct letters, so the alternation order cannot matter. -/
def matchWord (s : Str) : Option (Str × Str) :=
  if startsWithChars s (("string").data) then some ((("string").data), s.drop 6)
  else if startsWithChars s (("vector").data) then some ((("vector").data), s.drop 6)
  else if startsWithChars s (("map").data) then some ((("map").data), s.drop 3)
  else if startsWithChars s (("abs").data) then some ((("abs").data), s.drop 3)
  else none

/-- Groups 2 and 3 of `STD_NAME_RE`: a vocabulary word followed by one mandatory non-word character. -/
def matchTail (s : Str) : Option (Str × Char × Str) :=
  match matchWord s with
  | none => none
  | some (w, rest) =>
    match rest with
    | [] => none
    | c :: rest' => if isWordChar c then none else some (w, c, rest')

/-- The `^` alternative of group 1 of `STD_NAME_RE`: an empty group 1, possible only at position 0 of the text (the pattern is compiled without MULTILINE). -/
def tryMatchCaret (atStart : Bool) (s : Str) : Option (Str × Str) :=
  if atStart then
    match matchTail s with
    | some (w, g3, rest') => some (("std::").data ++ w ++ [g3], rest')
    | none => none
  else none

/-- One attempt of `STD_NAME_RE` at the current position: group 1 is either one non-word character or, at position 0, empty.  On success the result is the replacement text `\1std::\2\3` paired with the unconsumed suffix.  When the first character is non-word but groups 2-3 fail after it, the engine backtracks to the `^` alternative, which can only succeed at position 0; `tryMatchCaret` then re-attempts groups 2-3 at the same position, faithfully to that backtracking. -/
def tryMatch (atStart : Bool) (s : Str) : Option (Str × Str) :=
  match s with
  | [] => none
  | c :: rest =>
    if isWordChar c then tryMatchCaret atStart (c :: rest)
    else
      match matchTail rest with
      | some (w, g3, rest') => some (c :: (("std::").data ++ w ++ [g3]), rest')
      | none => tryMatchCaret atStart (c :: rest)

/-- The left-to-right non-overlapping scan of `re.sub`: at each position try the pattern; on a match emit the replacement and resume after the matched text, otherwise copy one character.  The fuel only funds termination; `s.length` always suffices because a match always consumes at least one character. -/
def subScanF : Nat → Bool → Str → Str
  | 0, _, s => s
  | fuel + 1, atStart, s =>
    match tryMatch atStart s with
    | some (rep, rest) => rep ++ subScanF fuel false rest
    | none =>
      match s with
      | [] => []
      | c :: rest => c :: subScanF fuel false rest

/-- `add_std` of `datagen.py` (lines 49-50): `STD_NAME_RE.sub(r"\1std::\2\3", code)`. -/
def add_std (code : Str) : Str := subScanF code.length true code

/-- Python's substring test `pat in s`. -/
def containsSub : Str → Str → Bool
  | [], pat => startsWithChars [] pat
  | c :: rest, pat => startsWithChars (c :: rest) pat || containsSub rest pat

/-- Lowercase hexadecimal digit. -/
def hexDigit (d : Nat) : Char :=
  if d < 10 then Char.ofNat (48 + d) else Char.ofNat (87 + d)

/-- Four-digit lowercase hexadecimal rendering of `n < 0x10000`, as in the `\uXXXX` escapes of `json.dumps`. -/
def hex4 (n : Nat) : Str :=
  [hexDigit (n / 4096 % 16), hexDigit (n / 256 % 16), hexDigit (n / 16 % 16), hexDigit (n % 16)]

/-- The escape `json.dumps` (default `ensure_ascii=True`) applies to one character: short escapes for the quote, the backslash and five control characters, printable ASCII verbatim, and `\uXXXX` otherwise, with a surrogate pair for astral code points. -/
def escapeChar (c : Char) : Str :=
  if c = '"' then ['\\', '"']
  else if c = '\\' then ['\\', '\\']
  else if c = '\n' then ['\\', 'n']
  else if c = '\r' then ['\\', 'r']
  else if c = '\t' then ['\\', 't']
  else if c = '\x08' then ['\\', 'b']
  else if c = '\x0c' then ['\\', 'f']
  else if 32 ≤ c.toNat ∧ c.toNat ≤ 126 then [c]
  else if c.toNat < 65536 then '\\' :: 'u' :: hex4 c.toNat
  else
    '\\' :: 'u' :: hex4 (55296 + (c.toNat - 65536) / 1024) ++
      '\\' :: 'u' :: hex4 (56320 + (c.toNat - 65536) % 1024)

/-- The `json.dumps` escaping of a whole string body. -/
def escape : Str → Str
  | [] => []
  | c :: s => escapeChar c ++ escape s

/-- Value of one hexadecimal digit, either case, as accepted inside a JSON `\uXXXX` escape. -/
def hexVal (c : Char) : Option Nat :=
  if 48 ≤ c.toNat ∧ c.toNat ≤ 57 then some (c.toNat - 48)
  else if 97 ≤ c.toNat ∧ c.toNat ≤ 102 then some (c.toNat - 87)
  else if 65 ≤ c.toNat ∧ c.toNat ≤ 70 then some (c.toNat - 55)
  else none

/-- Value of a four-digit hexadecimal escape payload. -/
def hex4Val (h1 h2 h3 h4 : Char) : Option Nat :=
  match hexVal h1, hexVal h2, hexVal h3, hexVal h4 with
  | some d1, some d2, some d3, some d4 => some (4096 * d1 + 256 * d2 + 16 * d3 + d4)
  | _, _, _, _ => none

/-- Prepend a decoded character to the result of the rest of a string-body parse. -/
def consStr (c : Char) : Option (Str × Str) → Option (Str × Str)
  | none => none
  | some (s, r) => some (c :: s, r)

/-- Consume a four-digit hexadecimal payload, as inside a JSON `\uXXXX` escape. -/
def parseHex4 (s : Str) : Option (Nat × Str) :=
  match s with
  | h1 :: h2 :: h3 :: h4 :: rest =>
    match hex4Val h1 h2 h3 h4 with
    | some n => some (n, rest)
    | none => none
  | _ => none

/-- Continuation of a high-surrogate escape: expect a second escape introducer and a four-digit payload holding a low surrogate, and combine the pair into one astral code point. -/
def parseLowSurrogate (n : Nat) (rest3 : Str) : Option (Char × Str) :=
  match rest3 with
  | b :: u :: rest3' =>
    if b = '\\' ∧ u = 'u' then
      match parseHex4 rest3' with
      | some (m, rest4) =>
        if 56320 ≤ m ∧ m < 57344 then
          some (Char.ofNat (65536 + (n - 55296) * 1024 + (m - 56320)), rest4)
        else none
      | none => none
    else none
  | _ => none

/-- Decode one `\uXXXX` escape payload (the backslash and the letter u already consumed): a code point outside the surrogate range stands alone, a high surrogate must be followed by a second escape holding a low surrogate, and a lone surrogate is rejected — such a code point is not a Unicode scalar value, so it has no `Char` counterpart (the serializer never emits one). -/
def parseUEscape (rest2 : Str) : Option (Char × Str) :=
  match parseHex4 rest2 with
  | none => none
  | some (n, rest3) =>
    if n < 55296 ∨ 57344 ≤ n then some (Char.ofNat n, rest3)
    else if n < 56320 then parseLowSurrogate n rest3
    else none

/-- Fuelled parser for the body of a JSON string literal, the opening quote already consumed: decode escapes up to the closing quote and return the decoded text with the unconsumed suffix.  The fuel only funds termination; one unit per decoded character, so the input length always suffices. -/
def parseStringF : Nat → Str → Option (Str × Str)
  | 0, _ => none
  | _ + 1, [] => none
  | fuel + 1, c :: rest =>
    if c = '"' then some ([], rest)
    else if c ≠ '\\' then consStr c (parseStringF fuel rest)
    else
      match rest with
      | [] => none
      | e :: rest2 =>
        if e = '"' then consStr '"' (parseStringF fuel rest2)
        else if e = '\\' then consStr '\\' (parseStringF fuel rest2)
        else if e = '/' then consStr '/' (parseStringF fuel rest2)
        else if e = 'n' then consStr '\n' (parseStringF fuel rest2)
        else if e = 'r' then consStr '\r' (parseStringF fuel rest2)
        else if e = 't' then consStr '\t' (parseStringF fuel rest2)
        else if e = 'b' then consStr '\x08' (parseStringF fuel rest2)
        else if e = 'f' then consStr '\x0c' (parseStringF fuel rest2)
        else if e = 'u' then
          match parseUEscape rest2 with
          | some (ch, rest3) => consStr ch (parseStringF fuel rest3)
          | none => none
        else none

/-- Parser for the body of a JSON string literal with adequate fuel. -/
def parseString (s : Str) : Option (Str × Str) := parseStringF s.length s

/-- The persisted record assembled by `gen_loop` (lines 167-178): `task_id` plus the nine curated text artifacts. -/
structure Record where
  task_id : Str
  base_prompt : Str
  sfinae_prompt : Str
  concepts_prompt : Str
  starter_code : Str
  base_canonical_solution : Str
  sfinae_canonical_solution : Str
  concepts_canonical_solution : Str
  tests : Str
  invalids : Str
deriving DecidableEq

/-- Leading literal of a serialized record line, up to the first value: `json.dumps(gdoc, sort_keys=True)` emits the ten keys in sorted order with separators `", "` and `": "`. -/
def litBaseCanonical : Str := ("\x7b\"base_canonical_solution\": \"").data

/-- Literal between the first value and the second. -/
def litBasePrompt : Str := (", \"base_prompt\": \"").data

/-- Literal before the `concepts_canonical_solution` value. -/
def litConceptsCanonical : Str := (", \"concepts_canonical_solution\": \"").data

/-- Literal before the `concepts_prompt` value. -/
def litConceptsPrompt : Str := (", \"concepts_prompt\": \"").data

/-- Literal before the `invalids` value. -/
def litInvalids : Str := (", \"invalids\": \"").data

/-- Literal before the `sfinae_canonical_solution` value. -/
def litSfinaeCanonical : Str := (", \"sfinae_canonical_solution\": \"").data

/-- Literal before the `sfinae_prompt` value. -/
def litSfinaePrompt : Str := (", \"sfinae_prompt\": \"").data

/-- Literal before the `starter_code` value. -/
def litStarterCode : Str := (", \"starter_code\": \"").data

/-- Literal before the `task_id` value. -/
def litTaskId : Str := (", \"task_id\": \"").data

/-- Literal before the `tests` value. -/
def litTests : Str := (", \"tests\": \"").data

/-- One key-value piece of a serialized record line: the leading literal (ending in an opening quote), the escaped value, its closing quote, then the rest of the line. -/
def fieldPiece (lit v rest : Str) : Str := lit ++ (escape v ++ ('"' :: rest))

/-- One output line of `gen_loop` and `fix`: `json.dumps(record, sort_keys=True)` with the default separators. -/
def serializeRecordLine (r : Record) : Str :=
  fieldPiece litBaseCanonical r.base_canonical_solution
    (fieldPiece litBasePrompt r.base_prompt
      (fieldPiece litConceptsCanonical r.concepts_canonical_solution
        (fieldPiece litConceptsPrompt r.concepts_prompt
          (fieldPiece litInvalids r.invalids
            (fieldPiece litSfinaeCanonical r.sfinae_canonical_solution
              (fieldPiece litSfinaePrompt r.sfinae_prompt
                (fieldPiece litStarterCode r.starter_code
                  (fieldPiece litTaskId r.task_id
                    (fieldPiece litTests r.tests ['\x7d'])))))))))

/-- Leading-literal consumer used by the record-line parser. -/
def dropLit : Str → Str → Option Str
  | [], s => some s
  | _ :: _, [] => none
  | p :: ps, c :: cs => if c = p then dropLit ps cs else none

/-- Consume one key-value piece of a record line: the leading literal, then a JSON string value. -/
def parseField (lit : Str) (s : Str) : Option (Str × Str) :=
  match dropLit lit s with
  | none => none
  | some s1 => parseString s1

/-- Parser for one serialized record line: `json.loads` restricted to the exact shape `json.dumps(record, sort_keys=True)` emits. -/
def parseRecordLine (s : Str) : Option Record :=
  match parseField litBaseCanonical s with
  | none => none
  | some (bcs, s2) =>
  match parseField litBasePrompt s2 with
  | none => none
  | some (bp, s4) =>
  match parseField litConceptsCanonical s4 with
  | none => none
  | some (ccs, s6) =>
  match parseField litConceptsPrompt s6 with
  | none => none
  | some (cp, s8) =>
  match parseField litInvalids s8 with
  | none => none
  | some (inv, s10) =>
  match parseField litSfinaeCanonical s10 with
  | none => none
  | some (scs, s12) =>
  match parseField litSfinaePrompt s12 with
  | none => none
  | some (sp, s14) =>
  match parseField litStarterCode s14 with
  | none => none
  | some (stc, s16) =>
  match parseField litTaskId s16 with
  | none => none
  | some (tid, s18) =>
  match parseField litTests s18 with
  | none => none
  | some (tst, s20) =>
  match s20 with
  | ['\x7d'] => some ⟨tid, bp, sp, cp, stc, bcs, scs, ccs, tst, inv⟩
  | _ => none

/-- One corpus entry of the external dataset: the three fields `gen_loop` reads. -/
structure Doc where
  declaration : Str
  canonical_solution : Str
  test : Str
deriving DecidableEq

/-- The nine artifact files of one entry's staging workspace (the temporary directory of `gen_loop`); a field holds the current content of the corresponding file. -/
structure Workspace where
  base_prompt : Str := []
  sfinae_prompt : Str := []
  concepts_prompt : Str := []
  starter : Str := []
  base : Str := []
  sfinae : Str := []
  concepts : Str := []
  tests : Str := []
  invalids : Str := []
deriving DecidableEq

/-- Oracles for the external world of convert mode: `fmt` is the clang-format subprocess as a pure text transform (assumed to succeed; a failure aborts the real run before any prompt), and `edit idx stage` gives the operator's manual file edits while the prompt of stage `stage` of entry `idx` is pending. -/
structure Env where
  fmt : Str → Str
  edit : Nat → Nat → Workspace → Workspace

/-- `BASE_PROMPT_PREFIX` of `datagen.py` (line 13). -/
def BASE_PROMPT_TXT : Str := ("Make the following function generic for ").data

/-- `CONCEPTS_PROMPT_PREFIX` of `datagen.py` (lines 14-16). -/
def CONCEPTS_PROMPT_TXT : Str := ("Constrain the generic code using C++20 Concepts so that ").data

/-- `SFINAE_PROMPT_PREFIX` of `datagen.py` (lines 17-19). -/
def SFINAE_PROMPT_TXT : Str := ("Constrain the generic code using C++17 SFINAE so that ").data

/-- `EMPTY_MAIN` of `datagen.py` (line 26). -/
def EMPTY_MAIN : Str := ("int main() \x7b\x7d").data

/-- Python `f"HEP/\x7bidx\x7d"` (line 168). -/
def taskIdOf (idx : Nat) : Str := ("HEP/").data ++ Nat.toDigits 10 idx

/-- Outcome of processing one unfiltered corpus entry in `gen_loop`. -/
inductive EntryResult where
  | ranOut : EntryResult
  | exited : EntryResult
  | skipped : List Str → EntryResult
  | committed : Record → List Str → EntryResult
deriving DecidableEq

/-- One unfiltered entry of the convert loop (`gen_loop` lines 66-180): normalize the source, then three staged prompts.  `exit` aborts the whole run, `skip` abandons the entry, and continue (the empty command) commits the stage, re-reading every edited file.  `ranOut` models an exhausted input stream, where the real program would block forever at the prompt. -/
def processEntry (env : Env) (idx : Nat) (doc : Doc) (inputs : List Str) : EntryResult :=
  let code := add_std (strip_code (doc.declaration ++ doc.canonical_solution))
  let ws : Workspace := { starter := env.fmt code }
  match promptLoop inputs with
  | none => .ranOut
  | some (r1, in1) =>
    if r1 = ("exit").data then .exited
    else if r1 = ("skip").data then .skipped in1
    else
      let ws := env.edit idx 0 ws
      let ws := { ws with starter := env.fmt ws.starter }
      let starter_code := ws.starter
      let ws := { ws with
        base := starter_code
        base_prompt := BASE_PROMPT_TXT }
      match promptLoop in1 with
      | none => .ranOut
      | some (r2, in2) =>
        if r2 = ("exit").data then .exited
        else if r2 = ("skip").data then .skipped in2
        else
          let ws := env.edit idx 1 ws
          let ws := { ws with base := env.fmt ws.base }
          let base_code := ws.base
          let ws := { ws with
            sfinae := base_code
            concepts := base_code
            sfinae_prompt := SFINAE_PROMPT_TXT
            concepts_prompt := CONCEPTS_PROMPT_TXT
            tests := env.fmt doc.test
            invalids := env.fmt EMPTY_MAIN }
          match promptLoop in2 with
          | none => .ranOut
          | some (r3, in3) =>
            if r3 = ("exit").data then .exited
            else if r3 = ("skip").data then .skipped in3
            else
              let ws := env.edit idx 2 ws
              let ws := { ws with
                sfinae := env.fmt ws.sfinae
                concepts := env.fmt ws.concepts
                tests := env.fmt ws.tests
                invalids := env.fmt ws.invalids }
              .committed ⟨taskIdOf idx, ws.base_prompt, ws.sfinae_prompt, ws.concepts_prompt,
                ws.starter, ws.base, ws.sfinae, ws.concepts, ws.tests, ws.invalids⟩ in3

/-- The disallowed-dependency substrings of `gen_loop` (line 61), in source order. -/
def DISALLOWED : List Str := [("boost/any.hpp").data, ("openssl/md5.h").data]

/-- The pre-filter of `gen_loop` (lines 58-64): `any(s in code or s in test for s in [...])` over `code = declaration + canonical_solution`. -/
def filteredOut (doc : Doc) : Bool :=
  DISALLOWED.any fun s =>
    containsSub (doc.declaration ++ doc.canonical_solution) s || containsSub doc.test s

/-- The body of `gen_loop` over an explicit list of (index, entry) pairs, accumulating the records printed (appended and flushed) so far.  A filtered entry is passed over before any workspace activity or prompt; `exit` (and an exhausted input stream) stops with exactly the records accumulated so far. -/
def genAux (env : Env) : List (Nat × Doc) → List Record → List Str → List Record
  | [], acc, _ => acc
  | (idx, doc) :: rest, acc, inputs =>
    if filteredOut doc then genAux env rest acc inputs
    else
      match processEntry env idx doc inputs with
      | .ranOut => acc
      | .exited => acc
      | .skipped in1 => genAux env rest acc in1
      | .committed r in1 => genAux env rest (acc ++ [r]) in1

/-- An empty corpus entry, the default of an out-of-range lookup that the clamped range of `gen_loop` never performs. -/
def emptyDoc : Doc := ⟨[], [], []⟩

/-- `gen_loop` of `datagen.py` (lines 53-180): iterate `range(start, min(len(hep), start + count))`, returning the records appended to the output store in order. -/
def gen_loop (env : Env) (hep : List Doc) (start count : Nat) (inputs : List Str) : List Record :=
  genAux env
    ((List.range' start (min hep.length (start + count) - start)).map
      fun i => (i, hep.getD i emptyDoc))
    [] inputs

/-- `convert` then `main` (lines 277-343): the store file is opened in append mode, each record line printed and flushed; normal completion, including one reached through an early `exit`, returns status 0. -/
def convert_run (env : Env) (hep : List Doc) (start count : Nat) (inputs : List Str)
    (prior : List Str) : Nat × List Str :=
  (0, prior ++ (gen_loop env hep start count inputs).map serializeRecordLine)

/-- Oracles for the external world of fix mode: the formatter and the operator's edits during the single combined stage. -/
structure FixEnv where
  fmt : Str → Str
  edit : Workspace → Workspace

/-- `rework` of `datagen.py` (lines 183-257): seed the workspace from the record, format the six code files, prompt once; `exit` and `skip` both return the record unchanged, and continue formats again, re-reads every file, and rebuilds the record with the original `task_id`. -/
def rework (env : FixEnv) (j : Record) (inputs : List Str) : Option (Record × List Str) :=
  let ws : Workspace :=
    ⟨j.base_prompt, j.sfinae_prompt, j.concepts_prompt, env.fmt j.starter_code,
     env.fmt j.base_canonical_solution, env.fmt j.sfinae_canonical_solution,
     env.fmt j.concepts_canonical_solution, env.fmt j.tests, env.fmt j.invalids⟩
  match promptLoop inputs with
  | none => none
  | some (r, rest) =>
    if r = ("exit").data then some (j, rest)
    else if r = ("skip").data then some (j, rest)
    else
      let ws := env.edit ws
      let ws := { ws with
        starter := env.fmt ws.starter
        base := env.fmt ws.base
        sfinae := env.fmt ws.sfinae
        concepts := env.fmt ws.concepts
        tests := env.fmt ws.tests
        invalids := env.fmt ws.invalids }
      some (⟨j.task_id, ws.base_prompt, ws.sfinae_prompt, ws.concepts_prompt,
        ws.starter, ws.base, ws.sfinae, ws.concepts, ws.tests, ws.invalids⟩, rest)

/-- The load-and-rework pass of `fix` (lines 264-270) over parsed records, threading the input stream: a record whose `task_id` equals the key is reworked, every other record is kept as loaded. -/
def fixAux (env : FixEnv) (key : Str) : List Record → List Str → Option (List Record × List Str)
  | [], inputs => some ([], inputs)
  | j :: js, inputs =>
    if j.task_id = key then
      match rework env j inputs with
      | none => none
      | some (j1, inputs') =>
        match fixAux env key js inputs' with
        | none => none
        | some (js', rest) => some (j1 :: js', rest)
    else
      match fixAux env key js inputs with
      | none => none
      | some (js', rest) => some (j :: js', rest)

/-- Parse every line of the store, as the per-line `json.loads` of `fix` does; a malformed line aborts the run. -/
def parseStore : List Str → Option (List Record)
  | [] => some []
  | l :: ls =>
    match parseRecordLine l with
    | none => none
    | some r =>
      match parseStore ls with
      | none => none
      | some rs => some (r :: rs)

/-- `fix` of `datagen.py` (lines 260-274): load all lines, parse each, rework the records matching the supplied `task_id`, then truncate and rewrite the whole store, one `json.dumps(j, sort_keys=True)` line per record. -/
def fix (env : FixEnv) (key : Str) (lines : List Str) (inputs : List Str) : Option (List Str) :=
  match parseStore lines with
  | none => none
  | some js =>
    match fixAux env key js inputs with
    | none => none
    | some (js', _) => some (js'.map serializeRecordLine)

/-- The regex-sense standalone context before position `i` of `s`: the position is 0 or the previous character is non-word. -/
def precededOk (s : Str) (i : Nat) : Bool :=
  i == 0 ||
    match s.drop (i - 1) with
    | d :: _ => !isWordChar d
    | [] => false

/-- The regex-sense standalone context after an occurrence of `w` at position `i` of `s`: a following character exists and is non-word. -/
def followedOk (s w : Str) (i : Nat) : Bool :=
  match s.drop (i + w.length) with
  | g :: _ => !isWordChar g
  | [] => false

/-- A standalone occurrence of `w` at position `i` of `s`, in the sense matchable by `STD_NAME_RE`: the word occurs there, the position is 0 or preceded by a non-word character, and a non-word character follows. -/
def standaloneAt (s w : Str) (i : Nat) : Bool :=
  startsWithChars (s.drop i) w && precededOk s i && followedOk s w i

/-- Some vocabulary word has a standalone occurrence somewhere in `s`. -/
def hasStandalone (s : Str) : Bool :=
  (List.range s.length).any fun i => STD_NAMES.any fun w => standaloneAt s w i

/-- The substring `pat` occurs somewhere in `s`. -/
def OccursIn (pat s : Str) : Prop := ∃ u v, s = u ++ (pat ++ v)

/-- A concrete oracle environment: the formatter and the operator's edits leave every file unchanged. -/
def envId : Env := ⟨fun s => s, fun _ _ w => w⟩

/-- A concrete corpus entry whose declaration and solution are clean but whose test text names the disallowed openssl header. -/
def docWithMd5 : Doc :=
  ⟨("int add(int, int);").data, ("int add(int a, int b) \x7b return a + b; \x7d").data,
    ("#include <openssl/md5.h>").data⟩

/-- A concrete corpus entry containing none of the disallowed substrings. -/
def docClean : Doc :=
  ⟨("int add(int, int);").data, ("int add(int a, int b) \x7b return a + b; \x7d").data,
    ("int main() \x7b\x7d").data⟩

/-- The record whose every field is empty, used as the default of a positional lookup. -/
def emptyRecord : Record := ⟨[], [], [], [], [], [], [], [], [], []⟩

/-- A concrete stored record with key HEP/0. -/
def recA : Record :=
  ⟨("HEP/0").data, ("p0").data, ("p1").data, ("p2").data, ("c0").data, ("c1").data,
    ("c2").data, ("c3").data, ("t0").data, ("i0").data⟩

/-- A concrete stored record with key HEP/1. -/
def recB : Record :=
  ⟨("HEP/1").data, ("q0").data, ("q1").data, ("q2").data, ("d0").data, ("d1").data,
    ("d2").data, ("d3").data, ("u0").data, ("j0").data⟩

/-- The record `rework` produces from `recA` under `fixEnvEdit` on continue: the operator's edit to the base-prompt file is picked up, and `task_id` is the original one. -/
def recAEdited : Record :=
  ⟨("HEP/0").data, ("EDITED").data, ("p1").data, ("p2").data, ("c0").data, ("c1").data,
    ("c2").data, ("c3").data, ("t0").data, ("i0").data⟩

/-- A fix-mode oracle environment with identity formatter and no operator edits. -/
def fixEnvId : FixEnv := ⟨fun s => s, fun w => w⟩

/-- A fix-mode oracle environment whose operator edit rewrites the base-prompt file. -/
def fixEnvEdit : FixEnv := ⟨fun s => s, fun w => { w with base_prompt := ("EDITED").data }⟩

example : add_std (("abs abs").data) = ("std::abs abs").data := by decide
example : add_std (("abs;").data) = ("std::abs;").data := by decide
example : add_std (("std::abs;").data) = ("std::std::abs;").data := by decide
example : add_std (("vector<int> v; mystring s;").data) = ("std::vector<int> v; mystring s;").data := by decide
example : strip_code (joinln [("#include <vector>").data, ("using namespace std;").data, ("int f()\x7b\x7d").data]) = ("int f()\x7b\x7d").data := by decide
example : promptLoop [("bogus").data, ("  exit ").data] = some (("exit").data, []) := by decide
example : containsSub (("xopenssl/md5.hx").data) (("openssl/md5.h").data) = true := by decide

/-! Helper lemmas about the basic text functions. -/

theorem startsWithChars_append_self : ∀ (p t : Str), startsWithChars (p ++ t) p = true
  | [], _ => by simp [startsWithChars]
  | c :: ps, t => by simp [startsWithChars, startsWithChars_append_self ps t]

theorem startsWithChars_iff : ∀ (p s : Str), startsWithChars s p = true ↔ ∃ t, s = p ++ t
  | [], s => by simp [startsWithChars]
  | q :: ps, [] => by simp [startsWithChars]
  | q :: ps, c :: s => by
    simp only [startsWithChars, Bool.and_eq_true, beq_iff_eq, startsWithChars_iff ps s]
    constructor
    · rintro ⟨rfl, t, rfl⟩
      exact ⟨t, rfl⟩
    · rintro ⟨t, h⟩
      cases h
      exact ⟨rfl, t, rfl⟩

theorem containsSub_iff : ∀ (s pat : Str), containsSub s pat = true ↔ OccursIn pat s
  | [], pat => by
    simp only [containsSub, startsWithChars_iff, OccursIn]
    constructor
    · rintro ⟨t, h⟩
      exact ⟨[], t, h⟩
    · rintro ⟨u, v, h⟩
      cases u with
      | nil => exact ⟨v, h⟩
      | cons a u => simp at h
  | c :: rest, pat => by
    simp only [containsSub, Bool.or_eq_true, startsWithChars_iff, containsSub_iff rest pat,
      OccursIn]
    constructor
    · rintro (⟨t, h⟩ | ⟨u, v, h⟩)
      · exact ⟨[], t, h⟩
      · exact ⟨c :: u, v, by simp [h]⟩
    · rintro ⟨u, v, h⟩
      cases u with
      | nil => exact Or.inl ⟨v, h⟩
      | cons a u =>
        cases h
        exact Or.inr ⟨u, v, rfl⟩

theorem promptLoop_resolve : ∀ (junk : List Str) (x : Str) (rest : List Str),
    (∀ y ∈ junk, pyStrip y ∉ COMMANDS) → pyStrip x ∈ COMMANDS →
    promptLoop (junk ++ x :: rest) = some (pyStrip x, rest)
  | [], x, rest, _, hx => by simp [promptLoop, hx]
  | y :: junk, x, rest, hj, hx => by
    have hy : pyStrip y ∉ COMMANDS := hj y (by simp)
    have ih := promptLoop_resolve junk x rest (fun z hz => hj z (by simp [hz])) hx
    simp [promptLoop, hy, ih]

theorem takeWhile_no_nl : ∀ (l : Str), '\n' ∉ l → ∀ t,
    (l ++ '\n' :: t).takeWhile (fun x => x != '\n') = l
  | [], _, t => by simp
  | a :: l, h, t => by
    have ha : a ≠ '\n' := fun hh => h (by simp [hh])
    have hl : '\n' ∉ l := fun hh => h (by simp [hh])
    simp [List.takeWhile_cons, ha, takeWhile_no_nl l hl t]

theorem dropWhile_no_nl : ∀ (l : Str), '\n' ∉ l → ∀ t,
    (l ++ '\n' :: t).dropWhile (fun x => x != '\n') = '\n' :: t
  | [], _, t => by simp
  | a :: l, h, t => by
    have ha : a ≠ '\n' := fun hh => h (by simp [hh])
    have hl : '\n' ∉ l := fun hh => h (by simp [hh])
    simp [List.dropWhile_cons, ha, dropWhile_no_nl l hl t]

theorem dropWhile_no_nl_all (l : Str) (h : '\n' ∉ l) :
    l.dropWhile (fun x => x != '\n') = [] := by
  induction l with
  | nil => simp
  | cons a l ih =>
    have ha : a ≠ '\n' := fun hh => h (by simp [hh])
    have hl : '\n' ∉ l := fun hh => h (by simp [hh])
    simp [List.dropWhile_cons, ha, ih hl]

theorem takeWhile_no_nl_all (l : Str) (h : '\n' ∉ l) :
    l.takeWhile (fun x => x != '\n') = l := by
  induction l with
  | nil => simp
  | cons a l ih =>
    have ha : a ≠ '\n' := fun hh => h (by simp [hh])
    have hl : '\n' ∉ l := fun hh => h (by simp [hh])
    simp [List.takeWhile_cons, ha, ih hl]

theorem splitlinesF_nil : ∀ fuel, splitlinesF fuel [] = []
  | 0 => rfl
  | _ + 1 => rfl

theorem splitlinesF_last (fuel : Nat) (l : Str) (hne : l ≠ []) (h : '\n' ∉ l) :
    splitlinesF (fuel + 1) l = [l] := by
  cases l with
  | nil => exact absurd rfl hne
  | cons a l0 =>
    have h0 : '\n' ∉ l0 := fun hh => h (by simp [hh])
    have ha : a ≠ '\n' := fun hh => h (by simp [hh])
    simp [splitlinesF, List.dropWhile_cons, List.takeWhile_cons, ha,
      dropWhile_no_nl_all l0 h0, takeWhile_no_nl_all l0 h0]

theorem splitlinesF_step (fuel : Nat) (l t : Str) (h : '\n' ∉ l) :
    splitlinesF (fuel + 1) (l ++ '\n' :: t) = l :: splitlinesF fuel t := by
  cases l with
  | nil => simp [splitlinesF, List.dropWhile_cons, List.takeWhile_cons]
  | cons a l0 =>
    have ha : a ≠ '\n' := fun hh => h (by simp [hh])
    have h0 : '\n' ∉ l0 := fun hh => h (by simp [hh])
    have hd := dropWhile_no_nl (a :: l0) h t
    have ht := takeWhile_no_nl (a :: l0) h t
    simp only [List.cons_append] at hd ht ⊢
    simp [splitlinesF, hd, ht]

theorem splitlinesF_joinln : ∀ (ls : List Str) (fuel : Nat),
    (∀ x ∈ ls, '\n' ∉ x) → ls.getLast? ≠ some [] → (joinln ls).length ≤ fuel →
    splitlinesF fuel (joinln ls) = ls
  | [], fuel, _, _, _ => by simp [joinln, splitlinesF_nil]
  | [l], fuel, hnl, hlast, hfuel => by
    have hne : l ≠ [] := by
      intro h
      exact hlast (by simp [h])
    have hl : '\n' ∉ l := hnl l (by simp)
    have : 1 ≤ fuel := by
      have : 1 ≤ l.length := by
        cases l with
        | nil => exact absurd rfl hne
        | cons a l0 => simp
      simpa [joinln] using le_trans this hfuel
    obtain ⟨f, rfl⟩ : ∃ f, fuel = f + 1 := ⟨fuel - 1, by omega⟩
    simpa [joinln] using splitlinesF_last f l hne hl
  | l :: l' :: ls, fuel, hnl, hlast, hfuel => by
    have hl : '\n' ∉ l := hnl l (by simp)
    have hlen : (joinln (l :: l' :: ls)).length = l.length + 1 + (joinln (l' :: ls)).length := by
      simp [joinln]
      omega
    have : 1 ≤ fuel := by
      rw [hlen] at hfuel
      omega
    obtain ⟨f, rfl⟩ : ∃ f, fuel = f + 1 := ⟨fuel - 1, by omega⟩
    have hfuel' : (joinln (l' :: ls)).length ≤ f := by
      rw [hlen] at hfuel
      omega
    have ih := splitlinesF_joinln (l' :: ls) f (fun x hx => hnl x (by simp [hx]))
      (by simpa using hlast) hfuel'
    calc splitlinesF (f + 1) (joinln (l :: l' :: ls))
        = splitlinesF (f + 1) (l ++ '\n' :: joinln (l' :: ls)) := by rw [joinln]
      _ = l :: splitlinesF f (joinln (l' :: ls)) := splitlinesF_step f l _ hl
      _ = l :: l' :: ls := by rw [ih]

theorem splitlines_joinln (ls : List Str) (hnl : ∀ x ∈ ls, '\n' ∉ x)
    (hlast : ls.getLast? ≠ some []) : splitlines (joinln ls) = ls :=
  splitlinesF_joinln ls (joinln ls).length hnl hlast le_rfl

/-! Claim C3. -/

/-- C3: `strip_code` removes exactly the lines beginning with the namespace-use prefix or the inclusion prefix, and every other line passes through unchanged in its original relative order; on the three-line example input the result is the single remaining code line.  (A line list corresponds to an LF-separated text when no line contains a newline and the last line is not empty.) -/
theorem strip_code_filters_directive_lines :
    (∀ lines : List Str, (∀ l ∈ lines, '\n' ∉ l) → lines.getLast? ≠ some [] →
      strip_code (joinln lines) = joinln (lines.filter keepLine)) ∧
    strip_code (joinln [("#include <vector>").data, ("using namespace std;").data,
      ("int f()\x7b\x7d").data]) = ("int f()\x7b\x7d").data := by
  constructor
  · intro lines hnl hlast
    rw [strip_code, splitlines_joinln lines hnl hlast]
  · decide

/-- Witness for C3 at a concrete two-line input. -/
theorem strip_code_filters_directive_lines_witness :
    strip_code (joinln [("using namespace std;").data, ("int x;").data]) = ("int x;").data := by
  have h := strip_code_filters_directive_lines.1
    [("using namespace std;").data, ("int x;").data] (by decide) (by decide)
  rw [h]
  decide

/-! Claim C4. -/

/-- C4: an entry is filtered out, before any workspace activity or prompt, exactly when one of the two disallowed substrings occurs in its combined declaration-plus-solution text or in its test text; a filtered entry is passed over silently; the concrete entry whose test names the openssl header is filtered although its declaration is clean, and the concrete clean entry is not filtered. -/
theorem gen_prefilter_iff :
    (∀ doc : Doc,
      (filteredOut doc = true ↔
        ((OccursIn (("boost/any.hpp").data) (doc.declaration ++ doc.canonical_solution) ∨
            OccursIn (("boost/any.hpp").data) doc.test) ∨
          (OccursIn (("openssl/md5.h").data) (doc.declaration ++ doc.canonical_solution) ∨
            OccursIn (("openssl/md5.h").data) doc.test))) ∧
      (∀ env idx rest acc inputs, filteredOut doc = true →
        genAux env ((idx, doc) :: rest) acc inputs = genAux env rest acc inputs)) ∧
    filteredOut docWithMd5 = true ∧ filteredOut docClean = false := by
  refine ⟨fun doc => ⟨?_, fun env idx rest acc inputs h => by simp [genAux, h]⟩, by decide, by decide⟩
  simp [filteredOut, DISALLOWED, containsSub_iff]

/-- Witness for C4: the filtered concrete entry is passed over by the loop with no effect. -/
theorem gen_prefilter_iff_witness :
    genAux envId [(0, docWithMd5)] [] [] = [] := by
  have h := (gen_prefilter_iff.1 docWithMd5).2 envId 0 [] [] [] (by decide)
  simpa [genAux] using h

/-! Helper lemmas about the regex model behind `add_std`. -/

theorem dataString : ("string").data = ['s', 't', 'r', 'i', 'n', 'g'] := rfl

theorem dataVector : ("vector").data = ['v', 'e', 'c', 't', 'o', 'r'] := rfl

theorem dataMap : ("map").data = ['m', 'a', 'p'] := rfl

theorem dataAbs : ("abs").data = ['a', 'b', 's'] := rfl

theorem std_names_word : ∀ w ∈ STD_NAMES, ∀ c ∈ w, isWordChar c = true := by decide

theorem std_names_ne_nil : ∀ w ∈ STD_NAMES, w ≠ [] := by decide

theorem matchWord_self (w : Str) (hw : w ∈ STD_NAMES) (t : Str) :
    matchWord (w ++ t) = some (w, t) := by
  have hs := startsWithChars_append_self w t
  simp only [STD_NAMES, List.mem_cons, List.mem_singleton, List.not_mem_nil, or_false] at hw
  rcases hw with rfl | rfl | rfl | rfl
  · simp only [matchWord, hs, if_pos]
    rw [List.drop_left' (by rfl)]
  · have h1 : startsWithChars ((("vector").data) ++ t) (("string").data) = false := by
      rw [dataVector, dataString]
      simp +decide [startsWithChars]
    simp only [matchWord, h1, hs, Bool.false_eq_true, if_false, if_pos]
    rw [List.drop_left' (by rfl)]
  · have h1 : startsWithChars ((("map").data) ++ t) (("string").data) = false := by
      rw [dataMap, dataString]
      simp +decide [startsWithChars]
    have h2 : startsWithChars ((("map").data) ++ t) (("vector").data) = false := by
      rw [dataMap, dataVector]
      simp +decide [startsWithChars]
    simp only [matchWord, h1, h2, hs, Bool.false_eq_true, if_false, if_pos]
    rw [List.drop_left' (by rfl)]
  · have h1 : startsWithChars ((("abs").data) ++ t) (("string").data) = false := by
      rw [dataAbs, dataString]
      simp +decide [startsWithChars]
    have h2 : startsWithChars ((("abs").data) ++ t) (("vector").data) = false := by
      rw [dataAbs, dataVector]
      simp +decide [startsWithChars]
    have h3 : startsWithChars ((("abs").data) ++ t) (("map").data) = false := by
      rw [dataAbs, dataMap]
      simp +decide [startsWithChars]
    simp only [matchWord, h1, h2, h3, hs, Bool.false_eq_true, if_false, if_pos]
    rw [List.drop_left' (by rfl)]

theorem matchWord_none (s : Str) (h : ∀ w ∈ STD_NAMES, startsWithChars s w = false) :
    matchWord s = none := by
  have h1 := h (("string").data) (by simp [STD_NAMES])
  have h2 := h (("vector").data) (by simp [STD_NAMES])
  have h3 := h (("map").data) (by simp [STD_NAMES])
  have h4 := h (("abs").data) (by simp [STD_NAMES])
  simp [matchWord, h1, h2, h3, h4]

theorem matchWord_some_inv (s w r : Str) (h : matchWord s = some (w, r)) :
    w ∈ STD_NAMES ∧ s = w ++ r := by
  simp only [matchWord] at h
  split at h
  case isTrue hs =>
    obtain ⟨t, rfl⟩ := (startsWithChars_iff _ _).mp hs
    rw [List.drop_left' (by rfl)] at h
    cases h
    exact ⟨by simp [STD_NAMES], rfl⟩
  case isFalse =>
    split at h
    case isTrue hs =>
      obtain ⟨t, rfl⟩ := (startsWithChars_iff _ _).mp hs
      rw [List.drop_left' (by rfl)] at h
      cases h
      exact ⟨by simp [STD_NAMES], rfl⟩
    case isFalse =>
      split at h
      case isTrue hs =>
        obtain ⟨t, rfl⟩ := (startsWithChars_iff _ _).mp hs
        rw [List.drop_left' (by rfl)] at h
        cases h
        exact ⟨by simp [STD_NAMES], rfl⟩
      case isFalse =>
        split at h
        case isTrue hs =>
          obtain ⟨t, rfl⟩ := (startsWithChars_iff _ _).mp hs
          rw [List.drop_left' (by rfl)] at h
          cases h
          exact ⟨by simp [STD_NAMES], rfl⟩
        case isFalse => cases h

theorem matchTail_self (w : Str) (hw : w ∈ STD_NAMES) (c : Char) (hc : isWordChar c = false)
    (v : Str) : matchTail (w ++ c :: v) = some (w, c, v) := by
  simp [matchTail, matchWord_self w hw (c :: v), hc]

theorem matchTail_none (s : Str) (h : ∀ w ∈ STD_NAMES, startsWithChars s w = false) :
    matchTail s = none := by
  simp [matchTail, matchWord_none s h]

theorem matchTail_some_inv (s w : Str) (c : Char) (r : Str) (h : matchTail s = some (w, c, r)) :
    w ∈ STD_NAMES ∧ s = w ++ c :: r ∧ isWordChar c = false := by
  simp only [matchTail] at h
  split at h
  case h_1 => cases h
  case h_2 w' rest hmw =>
    obtain ⟨hw, rfl⟩ := matchWord_some_inv _ _ _ hmw
    cases rest with
    | nil => cases h
    | cons c' rest' =>
      by_cases hword : isWordChar c' = true
      · simp [hword] at h
      · simp only [hword, Bool.false_eq_true, if_false, Option.some_inj] at h
        obtain ⟨rfl, rfl, rfl⟩ := h
        exact ⟨hw, rfl, by simpa using hword⟩

theorem tryMatch_char (a : Bool) (d : Char) (hd : isWordChar d = false) (w : Str)
    (hw : w ∈ STD_NAMES) (c : Char) (hc : isWordChar c = false) (v : Str) :
    tryMatch a (d :: (w ++ c :: v)) = some (d :: (("std::").data ++ w ++ [c]), v) := by
  simp [tryMatch, hd, matchTail_self w hw c hc v]

theorem tryMatch_caret (w : Str) (hw : w ∈ STD_NAMES) (c : Char) (hc : isWordChar c = false)
    (v : Str) : tryMatch true (w ++ c :: v) = some (("std::").data ++ w ++ [c], v) := by
  obtain ⟨h0, wt, rfl⟩ : ∃ h0 wt, w = h0 :: wt := by
    cases w with
    | nil => exact absurd rfl (std_names_ne_nil _ hw)
    | cons h0 wt => exact ⟨h0, wt, rfl⟩
  have hword : isWordChar h0 = true := std_names_word _ hw h0 (by simp)
  have hmt := matchTail_self _ hw c hc v
  simp only [List.cons_append] at hmt ⊢
  simp [tryMatch, hword, tryMatchCaret, hmt]

theorem tryMatch_none (a : Bool) (s : Str)
    (h0 : ∀ w ∈ STD_NAMES, startsWithChars s w = false)
    (h1 : ∀ w ∈ STD_NAMES, startsWithChars (s.drop 1) w = false) :
    tryMatch a s = none := by
  cases s with
  | nil => simp [tryMatch]
  | cons c rest =>
    have hmt0 : matchTail (c :: rest) = none := matchTail_none _ h0
    have hmt1 : matchTail rest = none := matchTail_none _ (by simpa using h1)
    by_cases hc : isWordChar c = true
    · simp [tryMatch, hc, tryMatchCaret, hmt0]
    · simp [tryMatch, hc, hmt1, tryMatchCaret, hmt0]

theorem tryMatchCaret_some_inv (a : Bool) (s : Str) (rep r : Str)
    (h : tryMatchCaret a s = some (rep, r)) :
    a = true ∧ ∃ w c v, w ∈ STD_NAMES ∧ isWordChar c = false ∧ s = w ++ c :: v ∧ r = v := by
  simp only [tryMatchCaret] at h
  by_cases ha : a = true
  · rw [if_pos (by simpa using ha)] at h
    cases hmt : matchTail s with
    | none => rw [hmt] at h; cases h
    | some pr =>
      obtain ⟨w, c, v⟩ := pr
      obtain ⟨hw, hs, hc⟩ := matchTail_some_inv s w c v hmt
      simp only [hmt, Option.some_inj, Prod.mk.injEq] at h
      obtain ⟨hrep, hr⟩ := h
      exact ⟨ha, w, c, v, hw, hc, hs, hr.symm⟩
  · rw [if_neg (by simpa using ha)] at h
    cases h

theorem tryMatch_some_inv (a : Bool) (s : Str) (rep r : Str)
    (h : tryMatch a s = some (rep, r)) :
    (∃ d w c v, isWordChar d = false ∧ w ∈ STD_NAMES ∧ isWordChar c = false ∧
      s = d :: (w ++ c :: v) ∧ r = v) ∨
    (a = true ∧ ∃ w c v, w ∈ STD_NAMES ∧ isWordChar c = false ∧ s = w ++ c :: v ∧ r = v) := by
  cases s with
  | nil => cases h
  | cons c0 rest =>
    simp only [tryMatch] at h
    by_cases hc0 : isWordChar c0 = true
    · rw [if_pos hc0] at h
      exact Or.inr (tryMatchCaret_some_inv a _ rep r h)
    · rw [if_neg hc0] at h
      cases hmt : matchTail rest with
      | none =>
        rw [hmt] at h
        exact Or.inr (tryMatchCaret_some_inv a _ rep r h)
      | some pr =>
        obtain ⟨w, g3, rest'⟩ := pr
        obtain ⟨hw, hrest, hg3⟩ := matchTail_some_inv rest w g3 rest' hmt
        simp only [hmt, Option.some_inj, Prod.mk.injEq] at h
        obtain ⟨hrep, hr⟩ := h
        exact Or.inl ⟨c0, w, g3, rest', by simpa using hc0, hw, hg3, by rw [hrest], hr.symm⟩

theorem tryMatch_length {a : Bool} {s rep r : Str} (h : tryMatch a s = some (rep, r)) :
    r.length < s.length := by
  rcases tryMatch_some_inv a s rep r h with
    ⟨d, w, c, v, _, _, _, rfl, rfl⟩ | ⟨_, w, c, v, hw, _, rfl, rfl⟩
  · simp
    omega
  · have hne := std_names_ne_nil w hw
    have hpos : 0 < w.length := List.length_pos.mpr hne
    simp
    omega

theorem subScanF_nil : ∀ (f : Nat) (a : Bool), subScanF f a [] = []
  | 0, _ => rfl
  | _ + 1, _ => rfl

theorem subScanF_succ (f : Nat) (a : Bool) (c : Char) (rest : Str) :
    subScanF (f + 1) a (c :: rest) =
      match tryMatch a (c :: rest) with
      | some (rep, r) => rep ++ subScanF f false r
      | none => c :: subScanF f false rest := rfl

theorem subScanF_congr : ∀ (n f g : Nat) (a : Bool) (s : Str),
    s.length ≤ n → s.length ≤ f → s.length ≤ g → subScanF f a s = subScanF g a s := by
  intro n
  induction n with
  | zero =>
    intro f g a s hn _ _
    have hs : s = [] := by
      cases s with
      | nil => rfl
      | cons c r => simp at hn
    subst hs
    simp [subScanF_nil]
  | succ n ih =>
    intro f g a s hn hf hg
    cases s with
    | nil => simp [subScanF_nil]
    | cons c rest =>
      have h1 : 1 ≤ f := le_trans (by simp) hf
      have h2 : 1 ≤ g := le_trans (by simp) hg
      obtain ⟨f', rfl⟩ : ∃ f', f = f' + 1 := ⟨f - 1, by omega⟩
      obtain ⟨g', rfl⟩ : ∃ g', g = g' + 1 := ⟨g - 1, by omega⟩
      rw [subScanF_succ, subScanF_succ]
      cases hm : tryMatch a (c :: rest) with
      | some pr =>
        obtain ⟨rep, r⟩ := pr
        have hlt := tryMatch_length hm
        simp only [List.length_cons] at hn hf hg hlt
        show rep ++ subScanF f' false r = rep ++ subScanF g' false r
        rw [ih f' g' false r (by omega) (by omega) (by omega)]
      | none =>
        simp only [List.length_cons] at hn hf hg
        show c :: subScanF f' false rest = c :: subScanF g' false rest
        rw [ih f' g' false rest (by omega) (by omega) (by omega)]

theorem subScanF_id : ∀ (fuel : Nat) (a : Bool) (s : Str),
    tryMatch a s = none → (∀ i, tryMatch false (s.drop (i + 1)) = none) →
    subScanF fuel a s = s := by
  intro fuel
  induction fuel with
  | zero => intro a s _ _; rfl
  | succ fuel ih =>
    intro a s h0 h1
    cases s with
    | nil => simp [subScanF_nil]
    | cons c rest =>
      rw [subScanF_succ, h0]
      show c :: subScanF fuel false rest = c :: rest
      have hr0 : tryMatch false rest = none := by simpa using h1 0
      have hr1 : ∀ i, tryMatch false (rest.drop (i + 1)) = none := by
        intro i
        simpa [List.drop_succ_cons] using h1 (i + 1)
      rw [ih false rest hr0 hr1]

theorem drop_cons_lt_length {s : Str} {k : Nat} {g : Char} {t : Str} (h : s.drop k = g :: t) :
    k < s.length := by
  by_contra hk
  push_neg at hk
  rw [List.drop_eq_nil_of_le hk] at h
  cases h

theorem standalone_char_case {s : Str} {i : Nat} {d : Char} {w : Str} {c : Char} {v : Str}
    (hdrop : s.drop i = d :: (w ++ c :: v)) (hd : isWordChar d = false)
    (hc : isWordChar c = false) : standaloneAt s w (i + 1) = true := by
  have h1 : s.drop (i + 1) = w ++ c :: v := by
    have h := congrArg (List.drop 1) hdrop
    rw [List.drop_drop] at h
    simpa using h
  have h2 : s.drop (i + 1 + w.length) = c :: v := by
    have h := congrArg (List.drop w.length) h1
    rw [List.drop_drop, List.drop_left] at h
    exact h
  simp [standaloneAt, precededOk, followedOk, h1, h2, hdrop, hd, hc,
    startsWithChars_append_self]

theorem standalone_caret_case {s w : Str} {c : Char} {v : Str}
    (hs : s = w ++ c :: v) (hc : isWordChar c = false) : standaloneAt s w 0 = true := by
  have h2 : s.drop (0 + w.length) = c :: v := by
    rw [hs, Nat.zero_add, List.drop_left]
  simp [standaloneAt, precededOk, followedOk, hs, h2, hc, startsWithChars_append_self]

theorem hasStandalone_of {s w : Str} {i : Nat} (hw : w ∈ STD_NAMES)
    (h : standaloneAt s w i = true) : hasStandalone s = true := by
  have hfo : followedOk s w i = true := by
    simp only [standaloneAt, Bool.and_eq_true] at h
    exact h.2
  obtain ⟨g, t, hgt⟩ : ∃ g t, s.drop (i + w.length) = g :: t := by
    unfold followedOk at hfo
    cases hm : s.drop (i + w.length) with
    | nil => rw [hm] at hfo; cases hfo
    | cons g t => exact ⟨g, t, rfl⟩
  have hi : i < s.length := lt_of_le_of_lt (Nat.le_add_right i w.length) (drop_cons_lt_length hgt)
  simp only [hasStandalone, List.any_eq_true]
  exact ⟨i, List.mem_range.mpr hi, w, hw, h⟩

theorem add_std_id_of_no_standalone (s : Str) (h : hasStandalone s = false) : add_std s = s := by
  have hnot : ∀ w ∈ STD_NAMES, ∀ i, ¬ standaloneAt s w i = true := by
    intro w hw i hsa
    rw [hasStandalone_of hw hsa] at h
    cases h
  have h0 : tryMatch true s = none := by
    cases hm : tryMatch true s with
    | none => rfl
    | some pr =>
      obtain ⟨rep, r⟩ := pr
      rcases tryMatch_some_inv _ _ _ _ hm with
        ⟨d, w, c, v, hd, hw, hc, hs, _⟩ | ⟨_, w, c, v, hw, hc, hs, _⟩
      · have hdrop : s.drop 0 = d :: (w ++ c :: v) := by simpa using hs
        exact absurd (standalone_char_case hdrop hd hc) (hnot w hw 1)
      · exact absurd (standalone_caret_case hs hc) (hnot w hw 0)
  have h1 : ∀ i, tryMatch false (s.drop (i + 1)) = none := by
    intro i
    cases hm : tryMatch false (s.drop (i + 1)) with
    | none => rfl
    | some pr =>
      obtain ⟨rep, r⟩ := pr
      rcases tryMatch_some_inv _ _ _ _ hm with
        ⟨d, w, c, v, hd, hw, hc, hs, _⟩ | ⟨hfalse, _⟩
      · exact absurd (standalone_char_case hs hd hc) (hnot w hw (i + 1 + 1))
      · cases hfalse
  exact subScanF_id s.length true s h0 h1

theorem startsWith_isolate : ∀ (p : Str), (∀ ch ∈ p, isWordChar ch = true) →
    ∀ (c : Char), isWordChar c = false → ∀ (y v : Str),
    startsWithChars (y ++ c :: v) p = startsWithChars y p
  | [], _, c, hc, y, v => by simp [startsWithChars]
  | q :: ps, hall, c, hc, [], v => by
    have hq : isWordChar q = true := hall q (by simp)
    have hne : ¬ c = q := fun h => by rw [h, hq] at hc; cases hc
    simp [startsWithChars, hne]
  | q :: ps, hall, c, hc, b :: y', v => by
    have ih := startsWith_isolate ps (fun ch hch => hall ch (by simp [hch])) c hc y' v
    simp [startsWithChars, ih]

theorem subScanF_qualify : ∀ (u : Str) (fuel : Nat) (a : Bool) (w : Str) (c : Char) (v : Str),
    w ∈ STD_NAMES → isWordChar c = false →
    ((u = [] ∧ a = true) ∨ ∃ u0 d, u = u0 ++ [d] ∧ isWordChar d = false) →
    (∀ i, i < u.length → ∀ w', w' ∈ STD_NAMES → startsWithChars ((u ++ w).drop i) w' = false) →
    (u ++ (w ++ c :: v)).length ≤ fuel →
    subScanF fuel a (u ++ (w ++ c :: v)) =
      u ++ (("std::").data ++ (w ++ c :: subScanF v.length false v))
  | [], fuel, a, w, c, v, hw, hc, hend, _, hfuel => by
    have ha : a = true := by
      rcases hend with ⟨_, ha⟩ | ⟨u0, d, h0, _⟩
      · exact ha
      · exact absurd h0.symm (by simp)
    subst ha
    simp only [List.nil_append, List.length_append, List.length_cons] at hfuel
    obtain ⟨f, rfl⟩ : ∃ f, fuel = f + 1 := ⟨fuel - 1, by omega⟩
    rw [List.nil_append]
    obtain ⟨h0, wt, hwdef⟩ : ∃ h0 wt, w = h0 :: wt := by
      cases w with
      | nil => exact absurd rfl (std_names_ne_nil _ hw)
      | cons h0 wt => exact ⟨h0, wt, rfl⟩
    have htm := tryMatch_caret w hw c hc v
    subst hwdef
    rw [List.cons_append] at htm ⊢
    rw [subScanF_succ, htm]
    show (("std::").data ++ (h0 :: wt) ++ [c]) ++ subScanF f false v =
      ("std::").data ++ ((h0 :: wt) ++ c :: subScanF (v.length) false v)
    rw [subScanF_congr v.length f v.length false v le_rfl (by simp at hfuel; omega) le_rfl]
    simp
  | x :: u', fuel, a, w, c, v, hw, hc, hend, hno, hfuel => by
    rcases hend with ⟨habs, _⟩ | ⟨u0, d, h0, hd⟩
    · exact absurd habs (by simp)
    cases u0 with
    | nil =>
      have hx : x = d ∧ u' = [] := by simpa using h0
      obtain ⟨hxd, rfl⟩ := hx
      have hdx : isWordChar x = false := by rw [hxd]; exact hd
      simp only [List.length_append, List.length_cons] at hfuel
      obtain ⟨f, rfl⟩ : ∃ f, fuel = f + 1 := ⟨fuel - 1, by simp at hfuel; omega⟩
      have htm := tryMatch_char a x hdx w hw c hc v
      rw [List.cons_append, List.nil_append, subScanF_succ, htm]
      show (x :: (("std::").data ++ w ++ [c])) ++ subScanF f false v =
        (x :: []) ++ (("std::").data ++ (w ++ c :: subScanF v.length false v))
      rw [subScanF_congr v.length f v.length false v le_rfl (by simp at hfuel ⊢; omega) le_rfl]
      simp
    | cons y u0' =>
      have hu' : u' = u0' ++ [d] := by
        rw [List.cons_append] at h0
        exact ((List.cons.injEq _ _ _ _).mp h0).2
      have hnil : u' ≠ [] := by rw [hu']; simp
      have hlen2 : 1 < (x :: u').length := by
        cases u' with
        | nil => exact absurd rfl hnil
        | cons _ _ => simp
      have hfull : ∀ w' ∈ STD_NAMES, startsWithChars ((x :: u') ++ (w ++ c :: v)) w' = false := by
        intro w' hw'
        rw [← List.append_assoc, startsWith_isolate w' (std_names_word w' hw') c hc _ v]
        have := hno 0 (by simp) w' hw'
        simpa using this
      have hdrop1 : ∀ w' ∈ STD_NAMES,
          startsWithChars (((x :: u') ++ (w ++ c :: v)).drop 1) w' = false := by
        intro w' hw'
        have hsh : ((x :: u') ++ (w ++ c :: v)).drop 1 = u' ++ (w ++ c :: v) := by simp
        rw [hsh, ← List.append_assoc, startsWith_isolate w' (std_names_word w' hw') c hc _ v]
        have := hno 1 hlen2 w' hw'
        simpa using this
      have htm : tryMatch a ((x :: u') ++ (w ++ c :: v)) = none := tryMatch_none a _ hfull hdrop1
      have hfge : 1 ≤ fuel := by
        simp only [List.length_append, List.length_cons] at hfuel
        omega
      obtain ⟨f, rfl⟩ : ∃ f, fuel = f + 1 := ⟨fuel - 1, by omega⟩
      rw [List.cons_append] at htm ⊢
      rw [subScanF_succ, htm]
      show x :: subScanF f false (u' ++ (w ++ c :: v)) =
        (x :: u') ++ (("std::").data ++ (w ++ c :: subScanF v.length false v))
      have ih := subScanF_qualify u' f false w c v hw hc (Or.inr ⟨u0', d, hu', hd⟩)
        (fun i hi w' hw' => by
          have := hno (i + 1) (by simp at hi ⊢; omega) w' hw'
          simpa using this)
        (by simp at hfuel ⊢; omega)
      rw [ih]
      simp

/-! Claims C8 and C2 (amended). -/

/-- C8: a vocabulary word embedded inside a larger identifier is never qualified.  First conjunct: on any text without a single regex-matchable standalone occurrence (in particular a text whose vocabulary occurrences are all embedded), `add_std` is the identity — qualification can only ever be triggered by a standalone occurrence.  Second conjunct: the concrete example, where the standalone vector is qualified while the string embedded in mystring is left untouched. -/
theorem add_std_never_qualifies_embedded :
    (∀ s : Str, hasStandalone s = false → add_std s = s) ∧
      add_std (("vector<int> v; mystring s;").data) =
        ("std::vector<int> v; mystring s;").data :=
  ⟨add_std_id_of_no_standalone, by decide⟩

/-- Witness for C8: a text whose only vocabulary occurrence is embedded is returned unchanged. -/
theorem add_std_never_qualifies_embedded_witness :
    add_std (("mystring s;").data) = ("mystring s;").data :=
  add_std_never_qualifies_embedded.1 (("mystring s;").data) (by decide)

/-- C2 (amended): the single pass qualifies a standalone occurrence only when a non-word character follows it and its leading delimiter survives the scan.  Precisely: for a text of the form u w c v with w a vocabulary word, c a non-word character, u empty or ending in a non-word character, and no vocabulary word occurring in u w before position length u, the pass rewrites exactly that occurrence and continues after the consumed delimiter; occurrences at the very end of the text, or whose leading delimiter was already consumed as the trailing delimiter of the previous match, are left unqualified (see the counterexample). -/
theorem add_std_qualifies_standalone (u w : Str) (c : Char) (v : Str)
    (hw : w ∈ STD_NAMES) (hc : isWordChar c = false)
    (hend : u = [] ∨ ∃ u0 d, u = u0 ++ [d] ∧ isWordChar d = false)
    (hno : ∀ i, i < u.length → ∀ w', w' ∈ STD_NAMES →
      startsWithChars ((u ++ w).drop i) w' = false) :
    add_std (u ++ (w ++ c :: v)) =
      u ++ (("std::").data ++ (w ++ c :: subScanF v.length false v)) := by
  have hend' : (u = [] ∧ true = true) ∨ ∃ u0 d, u = u0 ++ [d] ∧ isWordChar d = false := by
    rcases hend with h | h
    · exact Or.inl ⟨h, rfl⟩
    · exact Or.inr h
  exact subScanF_qualify u (u ++ (w ++ c :: v)).length true w c v hw hc hend' hno le_rfl

/-- Witness for the amended C2 at a concrete text. -/
theorem add_std_qualifies_standalone_witness :
    add_std (("x abs; y").data) = ("x std::abs; y").data := by
  have h := add_std_qualifies_standalone ('x' :: ' ' :: []) (("abs").data) ';' ((" y").data)
    (by decide) (by decide) (Or.inr ⟨['x'], ' ', rfl, by decide⟩) (by decide)
  exact h.trans (by decide)

/-! Claim C7 and the quick counterexample claims. -/

/-- Counterexample to claim C7 as stated: the raw input line consisting of a space followed by the word exit is outside the closed command set, yet the loop does not re-prompt on it; it strips it and acts on it at once. -/
theorem promptLoop_accepts_unstripped :
    promptLoop [(" exit").data] = some (("exit").data, []) ∧ (" exit").data ∉ COMMANDS := by
  decide

/-- C7 (amended): at every command prompt, for every finite sequence of inputs whose whitespace-stripped forms are outside the closed command set followed by one input whose stripped form is a command, the loop re-prompts on (consumes) each invalid input with no other effect and then acts on that first valid command, leaving the rest of the input stream untouched. -/
theorem promptLoop_first_valid (junk : List Str) (x : Str) (rest : List Str)
    (hj : ∀ y ∈ junk, pyStrip y ∉ COMMANDS) (hx : pyStrip x ∈ COMMANDS) :
    promptLoop (junk ++ x :: rest) = some (pyStrip x, rest) :=
  promptLoop_resolve junk x rest hj hx

/-- Witness for the amended C7 at a concrete prompt session. -/
theorem promptLoop_first_valid_witness :
    promptLoop [("zzz").data, (" skip ").data, ("later").data] =
      some (("skip").data, [("later").data]) := by
  have h := promptLoop_first_valid [("zzz").data] ((" skip ").data) [("later").data]
    (by decide) (by decide)
  have hs : pyStrip ((" skip ").data) = ("skip").data := by decide
  rw [hs] at h
  exact h

/-- C9: `add_std` is not idempotent; on the already-qualified text produced from the input consisting of abs and a semicolon, a second application qualifies again. -/
theorem add_std_not_idempotent :
    add_std (add_std (("abs;").data)) ≠ add_std (("abs;").data) := by decide

/-- Counterexample to claim C2 as stated: in the two-word input, the second occurrence of abs is standalone (preceded by a space, at the very end of the text), yet the single pass leaves it unqualified, because the first match consumed the separating space and the occurrence has no following character. -/
theorem add_std_misses_occurrences :
    add_std (("abs abs").data) = ("std::abs abs").data ∧
      add_std (("abs abs").data) ≠ ("std::abs std::abs").data := by decide

/-! Helper lemmas for the record-line codec. -/

theorem char_toNat_valid (c : Char) :
    c.toNat < 55296 ∨ (57344 ≤ c.toNat ∧ c.toNat < 1114112) := by
  rcases c.valid with h | ⟨h1, h2⟩
  · exact Or.inl (UInt32.toNat_lt_of_lt (by decide) h)
  · have ha : 57343 < c.toNat := UInt32.lt_toNat_of_lt (by decide) h1
    have hb : c.toNat < 1114112 := UInt32.toNat_lt_of_lt (by decide) h2
    exact Or.inr ⟨by omega, hb⟩

theorem hexVal_hexDigit : ∀ d, d < 16 → hexVal (hexDigit d) = some d := by decide

theorem hex4Val_hex4 (n : Nat) (h : n < 65536) :
    hex4Val (hexDigit (n / 4096 % 16)) (hexDigit (n / 256 % 16)) (hexDigit (n / 16 % 16))
      (hexDigit (n % 16)) = some n := by
  rw [hex4Val, hexVal_hexDigit _ (Nat.mod_lt _ (by omega)),
    hexVal_hexDigit _ (Nat.mod_lt _ (by omega)), hexVal_hexDigit _ (Nat.mod_lt _ (by omega)),
    hexVal_hexDigit _ (Nat.mod_lt _ (by omega))]
  show some _ = some n
  congr 1
  omega

theorem parseHex4_hex4 (n : Nat) (h : n < 65536) (t : Str) :
    parseHex4 (hex4 n ++ t) = some (n, t) := by
  rw [hex4]
  simp only [List.cons_append, List.nil_append]
  simp only [parseHex4]
  simp only [hex4Val_hex4 n h]

theorem parseUEscape_bmp (c : Char) (h9 : c.toNat < 65536) (t : Str) :
    parseUEscape (hex4 c.toNat ++ t) = some (c, t) := by
  have hcond : c.toNat < 55296 ∨ 57344 ≤ c.toNat := by
    rcases char_toNat_valid c with h | ⟨ha, _⟩
    · exact Or.inl h
    · exact Or.inr ha
  rw [parseUEscape]
  simp only [parseHex4_hex4 c.toNat h9 t]
  rw [if_pos hcond, Char.ofNat_toNat]

theorem parseLowSurrogate_hex4 (n m : Nat) (hm : m < 65536) (hcond : 56320 ≤ m ∧ m < 57344)
    (t : Str) :
    parseLowSurrogate n ('\\' :: 'u' :: (hex4 m ++ t)) =
      some (Char.ofNat (65536 + (n - 55296) * 1024 + (m - 56320)), t) := by
  rw [parseLowSurrogate]
  rw [if_pos (⟨rfl, rfl⟩ : ('\\' : Char) = '\\' ∧ ('u' : Char) = 'u')]
  simp only [parseHex4_hex4 m hm t]
  rw [if_pos hcond]

theorem parseUEscape_astral (c : Char) (h9 : 65536 ≤ c.toNat) (hlt : c.toNat < 1114112)
    (t : Str) :
    parseUEscape (hex4 (55296 + (c.toNat - 65536) / 1024) ++
      ('\\' :: 'u' :: (hex4 (56320 + (c.toNat - 65536) % 1024) ++ t))) = some (c, t) := by
  rw [parseUEscape]
  simp only [parseHex4_hex4 (55296 + (c.toNat - 65536) / 1024) (by omega)]
  rw [if_neg (by omega), if_pos (by omega)]
  rw [parseLowSurrogate_hex4 _ _ (by omega) ⟨by omega, by omega⟩ t]
  have harith : 65536 + (55296 + (c.toNat - 65536) / 1024 - 55296) * 1024 +
      (56320 + (c.toNat - 65536) % 1024 - 56320) = c.toNat := by omega
  rw [harith, Char.ofNat_toNat]

theorem parseStringF_u (fuel : Nat) (rest2 : Str) (ch : Char) (rest3 : Str)
    (h : parseUEscape rest2 = some (ch, rest3)) :
    parseStringF (fuel + 1) ('\\' :: 'u' :: rest2) = consStr ch (parseStringF fuel rest3) := by
  have e : parseStringF (fuel + 1) ('\\' :: 'u' :: rest2) =
      (match parseUEscape rest2 with
        | some (ch, rest3) => consStr ch (parseStringF fuel rest3)
        | none => none) := rfl
  rw [e, h]

theorem parseStringF_escapeChar (fuel : Nat) (c : Char) (t : Str) :
    parseStringF (fuel + 1) (escapeChar c ++ t) = consStr c (parseStringF fuel t) := by
  by_cases h1 : c = '"'
  · subst h1; rfl
  by_cases h2 : c = '\\'
  · subst h2; rfl
  by_cases h3 : c = '\n'
  · subst h3; rfl
  by_cases h4 : c = '\r'
  · subst h4; rfl
  by_cases h5 : c = '\t'
  · subst h5; rfl
  by_cases h6 : c = '\x08'
  · subst h6; rfl
  by_cases h7 : c = '\x0c'
  · subst h7; rfl
  by_cases h8 : 32 ≤ c.toNat ∧ c.toNat ≤ 126
  · rw [escapeChar, if_neg h1, if_neg h2, if_neg h3, if_neg h4, if_neg h5, if_neg h6, if_neg h7,
      if_pos h8, List.singleton_append]
    conv_lhs => rw [parseStringF.eq_def]
    simp [h1, h2]
  by_cases h9 : c.toNat < 65536
  · rw [escapeChar, if_neg h1, if_neg h2, if_neg h3, if_neg h4, if_neg h5, if_neg h6, if_neg h7,
      if_neg h8, if_pos h9]
    simp only [List.cons_append]
    exact parseStringF_u fuel _ c t (parseUEscape_bmp c h9 t)
  · have hval := char_toNat_valid c
    have hlt : c.toNat < 1114112 := by
      rcases hval with h | ⟨_, hb⟩
      · omega
      · exact hb
    rw [escapeChar, if_neg h1, if_neg h2, if_neg h3, if_neg h4, if_neg h5, if_neg h6, if_neg h7,
      if_neg h8, if_neg h9]
    simp only [List.cons_append, List.append_assoc]
    exact parseStringF_u fuel _ c t (parseUEscape_astral c (by omega) hlt t)

theorem parseStringF_escape : ∀ (s : Str) (fuel : Nat) (t : Str), s.length ≤ fuel →
    parseStringF (fuel + 1) (escape s ++ '"' :: t) = some (s, t)
  | [], fuel, t, _ => rfl
  | c :: s, fuel, t, h => by
    rw [escape, List.append_assoc, parseStringF_escapeChar]
    have hle : 1 ≤ fuel := by
      simp only [List.length_cons] at h
      omega
    obtain ⟨f, rfl⟩ : ∃ f, fuel = f + 1 := ⟨fuel - 1, by omega⟩
    rw [parseStringF_escape s f t (by simp at h; omega)]
    rfl

theorem one_le_escapeChar_length (c : Char) : 1 ≤ (escapeChar c).length := by
  rw [escapeChar]
  split_ifs <;> simp [hex4]

theorem escape_length_ge : ∀ s : Str, s.length ≤ (escape s).length
  | [] => le_rfl
  | c :: s => by
    rw [escape]
    simp only [List.length_append, List.length_cons]
    have h1 := one_le_escapeChar_length c
    have h2 := escape_length_ge s
    omega

theorem parseString_escape (s t : Str) : parseString (escape s ++ '"' :: t) = some (s, t) := by
  have h1 : s.length ≤ (escape s).length := escape_length_ge s
  have h3 : (escape s ++ '"' :: t).length = (escape s).length + t.length + 1 := by
    simp
    omega
  rw [parseString, h3, parseStringF_escape s _ t (by omega)]

theorem dropLit_prefix : ∀ (p t : Str), dropLit p (p ++ t) = some t
  | [], t => rfl
  | c :: p, t => by simp [dropLit, dropLit_prefix p t]

theorem parseField_piece (lit v rest : Str) :
    parseField lit (fieldPiece lit v rest) = some (v, rest) := by
  simp only [parseField, fieldPiece, dropLit_prefix, parseString_escape]

theorem parseRecordLine_serializeRecordLine (r : Record) :
    parseRecordLine (serializeRecordLine r) = some r := by
  simp only [parseRecordLine, serializeRecordLine, parseField_piece]

theorem hexDigit_ne_nl : ∀ e, e < 16 → hexDigit e ≠ '\n' := by decide

theorem newline_not_in_escapeChar (c : Char) : '\n' ∉ escapeChar c := by
  by_cases h1 : c = '"'
  · subst h1; decide
  by_cases h2 : c = '\\'
  · subst h2; decide
  by_cases h3 : c = '\n'
  · subst h3; decide
  by_cases h4 : c = '\r'
  · subst h4; decide
  by_cases h5 : c = '\t'
  · subst h5; decide
  by_cases h6 : c = '\x08'
  · subst h6; decide
  by_cases h7 : c = '\x0c'
  · subst h7; decide
  by_cases h8 : 32 ≤ c.toNat ∧ c.toNat ≤ 126
  · rw [escapeChar, if_neg h1, if_neg h2, if_neg h3, if_neg h4, if_neg h5, if_neg h6, if_neg h7,
      if_pos h8]
    intro hmem
    rw [List.mem_singleton] at hmem
    exact h3 hmem.symm
  by_cases h9 : c.toNat < 65536
  · rw [escapeChar, if_neg h1, if_neg h2, if_neg h3, if_neg h4, if_neg h5, if_neg h6, if_neg h7,
      if_neg h8, if_pos h9, hex4]
    intro hmem
    simp only [List.mem_cons, List.not_mem_nil, or_false] at hmem
    rcases hmem with h | h | h | h | h | h <;>
      first
        | exact absurd h.symm (by decide)
        | exact absurd h.symm (hexDigit_ne_nl _ (Nat.mod_lt _ (by omega)))
  · rw [escapeChar, if_neg h1, if_neg h2, if_neg h3, if_neg h4, if_neg h5, if_neg h6, if_neg h7,
      if_neg h8, if_neg h9, hex4, hex4]
    intro hmem
    simp only [List.cons_append, List.nil_append, List.mem_cons, List.not_mem_nil,
      or_false] at hmem
    rcases hmem with h | h | h | h | h | h | h | h | h | h | h | h <;>
      first
        | exact absurd h.symm (by decide)
        | exact absurd h.symm (hexDigit_ne_nl _ (Nat.mod_lt _ (by omega)))

theorem newline_not_in_escape : ∀ (s : Str), '\n' ∉ escape s
  | [] => by simp [escape]
  | c :: s => by
    rw [escape]
    intro hmem
    rcases List.mem_append.mp hmem with h | h
    · exact newline_not_in_escapeChar c h
    · exact newline_not_in_escape s h

theorem newline_not_in_fieldPiece (lit v rest : Str) (hlit : '\n' ∉ lit)
    (hrest : '\n' ∉ rest) : '\n' ∉ fieldPiece lit v rest := by
  rw [fieldPiece]
  intro hmem
  rcases List.mem_append.mp hmem with h | h
  · exact hlit h
  rcases List.mem_append.mp h with h | h
  · exact newline_not_in_escape v h
  rcases List.mem_cons.mp h with h | h
  · exact absurd h.symm (by decide)
  · exact hrest h

/-! Claim C6. -/

/-- C6: every record — the nine content fields plus `task_id`, with arbitrary text values — serializes to a single line (the output contains no newline: embedded newlines and non-ASCII characters are escaped) and parsing that line back reproduces every field verbatim. -/
theorem record_line_roundtrip (r : Record) :
    '\n' ∉ serializeRecordLine r ∧ parseRecordLine (serializeRecordLine r) = some r := by
  constructor
  · rw [serializeRecordLine]
    refine newline_not_in_fieldPiece _ _ _ (by decide) ?_
    refine newline_not_in_fieldPiece _ _ _ (by decide) ?_
    refine newline_not_in_fieldPiece _ _ _ (by decide) ?_
    refine newline_not_in_fieldPiece _ _ _ (by decide) ?_
    refine newline_not_in_fieldPiece _ _ _ (by decide) ?_
    refine newline_not_in_fieldPiece _ _ _ (by decide) ?_
    refine newline_not_in_fieldPiece _ _ _ (by decide) ?_
    refine newline_not_in_fieldPiece _ _ _ (by decide) ?_
    refine newline_not_in_fieldPiece _ _ _ (by decide) ?_
    exact newline_not_in_fieldPiece _ _ _ (by decide) (by decide)
  · exact parseRecordLine_serializeRecordLine r

/-! Helper lemmas about the fix pass. -/

theorem parseStore_roundtrip : ∀ js : List Record,
    parseStore (js.map serializeRecordLine) = some js
  | [] => rfl
  | r :: js => by
    simp only [List.map_cons, parseStore, parseRecordLine_serializeRecordLine r,
      parseStore_roundtrip js]

theorem fixAux_no_match : ∀ (env : FixEnv) (key : Str) (js : List Record) (inputs : List Str),
    (∀ j ∈ js, j.task_id ≠ key) → fixAux env key js inputs = some (js, inputs)
  | _, _, [], _, _ => rfl
  | env, key, j :: js, inputs, h => by
    have hj : ¬ j.task_id = key := h j (by simp)
    have ih := fixAux_no_match env key js inputs (fun x hx => h x (by simp [hx]))
    simp [fixAux, hj, ih]

theorem rework_task_id (env : FixEnv) (j : Record) (inputs : List Str) (j' : Record)
    (rest : List Str) (h : rework env j inputs = some (j', rest)) : j'.task_id = j.task_id := by
  simp only [rework] at h
  cases hpl : promptLoop inputs with
  | none => rw [hpl] at h; cases h
  | some pr =>
    obtain ⟨r0, rest0⟩ := pr
    simp only [hpl] at h
    by_cases he : r0 = ("exit").data
    · rw [if_pos he] at h
      simp only [Option.some_inj, Prod.mk.injEq] at h
      rw [← h.1]
    · rw [if_neg he] at h
      by_cases hs : r0 = ("skip").data
      · rw [if_pos hs] at h
        simp only [Option.some_inj, Prod.mk.injEq] at h
        rw [← h.1]
      · rw [if_neg hs] at h
        simp only [Option.some_inj, Prod.mk.injEq] at h
        rw [← h.1]

/-! Claim C5. -/

/-- C5: running fix with a key that matches no record in the store leaves the store semantically unchanged through the whole load-and-rewrite round trip: every line parses back to the same record and the rewritten store consists of exactly the original lines in the original order — the lookup miss is a silent no-op pass-through. -/
theorem fix_missing_key_noop (env : FixEnv) (key : Str) (records : List Record)
    (inputs : List Str) (h : ∀ r ∈ records, r.task_id ≠ key) :
    fix env key (records.map serializeRecordLine) inputs =
      some (records.map serializeRecordLine) := by
  simp only [fix, parseStore_roundtrip records, fixAux_no_match env key records inputs h]

/-- Witness for C5 on a concrete one-record store and an absent key. -/
theorem fix_missing_key_noop_witness :
    fix fixEnvId (("HEP/9").data) [serializeRecordLine recA] [] =
      some [serializeRecordLine recA] :=
  fix_missing_key_noop fixEnvId (("HEP/9").data) [recA] [] (by decide)

/-! Claim C10. -/

/-- Length preservation of the fix pass. -/
theorem fixAux_length : ∀ (env : FixEnv) (key : Str) (js : List Record) (inputs : List Str)
    (js' : List Record) (rest : List Str),
    fixAux env key js inputs = some (js', rest) → js'.length = js.length
  | env, key, [], inputs, js', rest, h => by
    simp only [fixAux, Option.some_inj, Prod.mk.injEq] at h
    rw [← h.1]
  | env, key, j :: js, inputs, js', rest, h => by
    simp only [fixAux] at h
    by_cases hid : j.task_id = key
    · rw [if_pos hid] at h
      cases hrw : rework env j inputs with
      | none => rw [hrw] at h; cases h
      | some pr =>
        obtain ⟨j1, inputs'⟩ := pr
        simp only [hrw] at h
        cases hfa : fixAux env key js inputs' with
        | none => rw [hfa] at h; cases h
        | some pr2 =>
          obtain ⟨js0, rest0⟩ := pr2
          simp only [hfa, Option.some_inj, Prod.mk.injEq] at h
          rw [← h.1]
          simp [fixAux_length env key js inputs' js0 rest0 hfa]
    · rw [if_neg hid] at h
      cases hfa : fixAux env key js inputs with
      | none => rw [hfa] at h; cases h
      | some pr2 =>
        obtain ⟨js0, rest0⟩ := pr2
        simp only [hfa, Option.some_inj, Prod.mk.injEq] at h
        rw [← h.1]
        simp [fixAux_length env key js inputs js0 rest0 hfa]

/-- C10: in fix mode, the pass over the loaded records preserves the record count, keeps every record's `task_id` unchanged in its original position — even a reworked record keeps the original `task_id`, because `rework` rebuilds it around the original key — and writes every record whose `task_id` differs from the supplied key back with all field values identical. -/
theorem fix_preserves_other_records (env : FixEnv) (key : Str) :
    ∀ (js : List Record) (inputs : List Str) (js' : List Record) (rest : List Str) (i : Nat),
    fixAux env key js inputs = some (js', rest) → i < js.length →
    js'.length = js.length ∧
    (js'.getD i emptyRecord).task_id = (js.getD i emptyRecord).task_id ∧
    ((js.getD i emptyRecord).task_id ≠ key → js'.getD i emptyRecord = js.getD i emptyRecord)
  | [], inputs, js', rest, i, h, hi => by simp at hi
  | j :: js, inputs, js', rest, i, h, hi => by
    refine ⟨fixAux_length env key (j :: js) inputs js' rest h, ?_⟩
    simp only [fixAux] at h
    by_cases hid : j.task_id = key
    · rw [if_pos hid] at h
      cases hrw : rework env j inputs with
      | none => rw [hrw] at h; cases h
      | some pr =>
        obtain ⟨j1, inputs'⟩ := pr
        simp only [hrw] at h
        cases hfa : fixAux env key js inputs' with
        | none => rw [hfa] at h; cases h
        | some pr2 =>
          obtain ⟨js0, rest0⟩ := pr2
          simp only [hfa, Option.some_inj, Prod.mk.injEq] at h
          obtain ⟨h1, _⟩ := h
          subst h1
          cases i with
          | zero =>
            refine ⟨by simpa using rework_task_id env j inputs j1 inputs' hrw, ?_⟩
            intro hne
            exact absurd hid (by simpa using hne)
          | succ i =>
            have hi' : i < js.length := by simpa using hi
            have ih := fix_preserves_other_records env key js inputs' js0 rest0 i hfa hi'
            simpa using ih.2
    · rw [if_neg hid] at h
      cases hfa : fixAux env key js inputs with
      | none => rw [hfa] at h; cases h
      | some pr2 =>
        obtain ⟨js0, rest0⟩ := pr2
        simp only [hfa, Option.some_inj, Prod.mk.injEq] at h
        obtain ⟨h1, _⟩ := h
        subst h1
        cases i with
        | zero => exact ⟨rfl, fun _ => rfl⟩
        | succ i =>
          have hi' : i < js.length := by simpa using hi
          have ih := fix_preserves_other_records env key js inputs js0 rest0 i hfa hi'
          simpa using ih.2

/-- Witness for C10: a concrete two-record store where the matching record is reworked with an operator edit; its `task_id` survives and the non-matching record is written back identical. -/
theorem fix_preserves_other_records_witness :
    fixAux fixEnvEdit (("HEP/0").data) [recA, recB] [("").data] =
        some ([recAEdited, recB], []) ∧
      (([recAEdited, recB] : List Record).getD 0 emptyRecord).task_id =
        (([recA, recB] : List Record).getD 0 emptyRecord).task_id ∧
      ([recAEdited, recB] : List Record).getD 1 emptyRecord =
        ([recA, recB] : List Record).getD 1 emptyRecord := by
  have h0 := fix_preserves_other_records fixEnvEdit (("HEP/0").data) [recA, recB]
    [("").data] [recAEdited, recB] [] 0 (by rfl) (by decide)
  have h1 := fix_preserves_other_records fixEnvEdit (("HEP/0").data) [recA, recB]
    [("").data] [recAEdited, recB] [] 1 (by rfl) (by decide)
  exact ⟨by rfl, h0.2.1, h1.2.2 (by decide)⟩

/-! Claim C1. -/

/-- C1: in convert mode, issuing exit at any of the three stages of an unfiltered entry makes `processEntry` report termination, whereupon the loop returns exactly the records appended so far — no record for the in-flight entry, every earlier appended record present unchanged, and no further corpus indices processed; the run then finishes with exit status 0, the prior store lines untouched ahead of the appended ones. -/
theorem gen_loop_exit_semantics (env : Env) (idx : Nat) (doc : Doc) :
    (∀ (rest : List (Nat × Doc)) (acc : List Record) (inputs : List Str),
      filteredOut doc = false → processEntry env idx doc inputs = EntryResult.exited →
      genAux env ((idx, doc) :: rest) acc inputs = acc) ∧
    (∀ junk x restIn, (∀ y ∈ junk, pyStrip y ∉ COMMANDS) → pyStrip x = ("exit").data →
      processEntry env idx doc (junk ++ x :: restIn) = EntryResult.exited) ∧
    (∀ junk1 c1 junk2 x restIn, (∀ y ∈ junk1, pyStrip y ∉ COMMANDS) → pyStrip c1 = [] →
      (∀ y ∈ junk2, pyStrip y ∉ COMMANDS) → pyStrip x = ("exit").data →
      processEntry env idx doc (junk1 ++ c1 :: (junk2 ++ x :: restIn)) =
        EntryResult.exited) ∧
    (∀ junk1 c1 junk2 c2 junk3 x restIn,
      (∀ y ∈ junk1, pyStrip y ∉ COMMANDS) → pyStrip c1 = [] →
      (∀ y ∈ junk2, pyStrip y ∉ COMMANDS) → pyStrip c2 = [] →
      (∀ y ∈ junk3, pyStrip y ∉ COMMANDS) → pyStrip x = ("exit").data →
      processEntry env idx doc
        (junk1 ++ c1 :: (junk2 ++ c2 :: (junk3 ++ x :: restIn))) = EntryResult.exited) ∧
    (∀ hep start count inputs prior, convert_run env hep start count inputs prior =
      (0, prior ++ (gen_loop env hep start count inputs).map serializeRecordLine)) := by
  refine ⟨?_, ?_, ?_, ?_, fun _ _ _ _ _ => rfl⟩
  · intro rest acc inputs hfil hexit
    simp [genAux, hfil, hexit]
  · intro junk x restIn hj hx
    have hpl := promptLoop_resolve junk x restIn hj (by rw [hx]; decide)
    rw [hx] at hpl
    simp [processEntry, hpl]
  · intro junk1 c1 junk2 x restIn hj1 hc1 hj2 hx
    have hpl1 := promptLoop_resolve junk1 c1 (junk2 ++ x :: restIn) hj1 (by rw [hc1]; decide)
    rw [hc1] at hpl1
    have hpl2 := promptLoop_resolve junk2 x restIn hj2 (by rw [hx]; decide)
    rw [hx] at hpl2
    simp +decide [processEntry, hpl1, hpl2]
  · intro junk1 c1 junk2 c2 junk3 x restIn hj1 hc1 hj2 hc2 hj3 hx
    have hpl1 := promptLoop_resolve junk1 c1 (junk2 ++ c2 :: (junk3 ++ x :: restIn)) hj1
      (by rw [hc1]; decide)
    rw [hc1] at hpl1
    have hpl2 := promptLoop_resolve junk2 c2 (junk3 ++ x :: restIn) hj2 (by rw [hc2]; decide)
    rw [hc2] at hpl2
    have hpl3 := promptLoop_resolve junk3 x restIn hj3 (by rw [hx]; decide)
    rw [hx] at hpl3
    simp +decide [processEntry, hpl1, hpl2, hpl3]

/-- Witness for C1: a two-entry session where the operator issues exit (with surrounding whitespace) at the first stage of the first entry; the records appended before it survive untouched and the second entry is never reached. -/
theorem gen_loop_exit_semantics_witness :
    genAux envId [(0, docClean), (1, docClean)] [recA] [(" exit ").data] = [recA] := by
  have h := gen_loop_exit_semantics envId 0 docClean
  have hexit := h.2.1 [] ((" exit ").data) [] (by simp) (by decide)
  exact h.1 [(1, docClean)] [recA] [(" exit ").data] (by decide) hexit

end Datagen
